import Mathlib

/-!
Shallow embedding of the RAG pipeline implemented in `src/src.ts`
(`RAGImplementation`): JavaScript-style string helpers, the text chunker,
the vector-store collection manager, point construction and batched upsert,
query classification, response generation with fallback, construction-time
configuration validation, and the prompt-template merge update.
-/

set_option autoImplicit false

namespace RagTs

/-! ### JavaScript-style string helpers -/

/-- JS truthiness of an optional string field: `undefined` and `""` are falsy. -/
def jsTruthy : Option String → Bool
  | none => false
  | some s => !(s == "")

/-- JS `x || d` for an optional string: `x` itself when truthy, else `d`.
Models both `config.field || default` and `content || fallback` in the source. -/
def jsOrDefault (x : Option String) (d : String) : String :=
  match x with
  | none => d
  | some s => if s == "" then d else s

/-- JS `String.prototype.trim`, modelled on the character list: drop leading
and trailing whitespace. -/
def jsTrim (s : List Char) : List Char :=
  ((s.dropWhile Char.isWhitespace).reverse.dropWhile Char.isWhitespace).reverse

/-- JS `String.prototype.replace` with a string pattern: replaces only the
first (leftmost) occurrence of `pat` by `repl`, scanning left to right. -/
def listReplaceFirst (pat repl : List Char) : List Char → List Char
  | [] => if pat.isEmpty then repl else []
  | c :: rest =>
    if pat.isPrefixOf (c :: rest) then repl ++ (c :: rest).drop pat.length
    else c :: listReplaceFirst pat repl rest

/-- String-level wrapper for `listReplaceFirst`, the model of
`s.replace(pat, repl)` in the source. -/
def jsReplaceFirst (s pat repl : String) : String :=
  ⟨listReplaceFirst pat.data repl.data s.data⟩

/-- The `{query}` placeholder. -/
def queryPat : List Char := "{query}".data

/-- The `{context}` placeholder. -/
def contextPat : List Char := "{context}".data

/-- No occurrence of `pat` starts strictly before position `k` in `s`. -/
def noPrefixBefore (pat s : List Char) (k : Nat) : Prop :=
  ∀ i, i < k → pat.isPrefixOf (s.drop i) = false

instance (pat s : List Char) (k : Nat) : Decidable (noPrefixBefore pat s k) := by
  unfold noPrefixBefore
  infer_instance

/-! ### Chunker

The splitting algorithm itself lives in the external langchain
`RecursiveCharacterTextSplitter`, not in this repository's sources; the
source only instantiates it with `chunkSize: 1000, chunkOverlap: 200`
(`createVectorStore`, src/src.ts lines 108-113). -/

/-- Target chunk size passed to the splitter (`chunkSize: 1000`). -/
def chunkSize : Nat := 1000

/-- Overlap between consecutive chunks (`chunkOverlap: 200`). -/
def chunkOverlap : Nat := 200

/-- Modelled from the spec: the splitting algorithm of the external langchain
`RecursiveCharacterTextSplitter` is not part of this repository's sources.
Following the spec's contract (section 4.1): overlapping segments of target
size 1000 with an overlap of 200, so each new chunk starts 800 characters
after the previous one, and concatenating the chunks after dropping the
200-character overlaps reproduces the source text. -/
def chunkListAux (s : List Char) : List (List Char) :=
  if s.length ≤ 1000 then [s]
  else s.take 1000 :: chunkListAux (s.drop 800)
termination_by s.length
decreasing_by
  simp only [List.length_drop]
  omega

/-- Modelled from the spec: string-level chunker (see `chunkListAux`). -/
def chunkText (s : String) : List String :=
  (chunkListAux s.data).map fun l => ⟨l⟩

/-- Reassembly of a chunk list: the first chunk followed by every later chunk
with its 200-character overlap removed. -/
def reassemble : List (List Char) → List Char
  | [] => []
  | c :: cs => c ++ (cs.map (List.drop 200)).flatten

/-! ### Vector store collection management (`ensureCollection`) -/

inductive Distance
  | cosine
  deriving DecidableEq, Repr

structure VectorParams where
  size : Nat
  distance : Distance
  deriving DecidableEq, Repr

/-- The relevant part of a Qdrant collection's configuration
(`collection.config.params.vectors` plus the creation options). -/
structure CollectionConfig where
  vectors : Option VectorParams
  defaultSegmentNumber : Nat
  replicationFactor : Nat
  writeConsistencyFactor : Nat
  deriving DecidableEq, Repr

inductive RAGError
  | configuration
  | emptyInput
  | dimensionMismatch (expected : Nat)
  | vectorStore
  deriving DecidableEq, Repr

/-- Result of `ensureCollection`: the call's outcome, the collection state
afterwards, and whether `createCollection` was invoked. -/
structure EnsureOutcome where
  result : Except RAGError Unit
  store : Option CollectionConfig
  created : Bool

/-- `RAGImplementation.ensureCollection` (src/src.ts lines 77-101).
`getCollection` succeeds when the collection exists; a missing or mismatched
declared vector size throws, which the catch block rethrows (its status is
not 404). A 404 from `getCollection` leads to `createCollection` with the
given size, cosine distance, and the fixed creation options. -/
def ensureCollection (store : Option CollectionConfig) (vectorSize : Nat) : EnsureOutcome :=
  match store with
  | some c =>
    match c.vectors with
    | none => ⟨.error (.dimensionMismatch vectorSize), some c, false⟩
    | some vp =>
      if vp.size ≠ vectorSize then ⟨.error (.dimensionMismatch vectorSize), some c, false⟩
      else ⟨.ok (), some c, false⟩
  | none =>
    ⟨.ok (),
      some { vectors := some { size := vectorSize, distance := .cosine },
             defaultSegmentNumber := 2, replicationFactor := 2,
             writeConsistencyFactor := 1 },
      true⟩

/-! ### Point construction and batched upsert (`createVectorStore`) -/

/-- A Qdrant point as built in `createVectorStore` (src/src.ts lines 120-128):
`id: Date.now() + i`, the embedding vector, and the payload with the trimmed
chunk text, an ISO timestamp, and the chunk index. -/
structure Point where
  id : Nat
  vector : List Int
  text : String
  timestamp : String
  chunkIndex : Nat
  deriving DecidableEq, Repr

/-- The `documentTexts.map((text, i) => ...)` point builder. `now i` is the
value of `Date.now()` at the construction of the i-th point and `iso i` the
i-th `new Date().toISOString()`. -/
def mkPointsAux (now : Nat → Nat) (iso : Nat → String) :
    Nat → List (String × List Int) → List Point
  | _, [] => []
  | i, (t, v) :: rest =>
    { id := now i + i, vector := v, text := ⟨jsTrim t.data⟩,
      timestamp := iso i, chunkIndex := i } :: mkPointsAux now iso (i + 1) rest

def mkPoints (now : Nat → Nat) (iso : Nat → String)
    (texts : List String) (embeds : List (List Int)) : List Point :=
  mkPointsAux now iso 0 (texts.zip embeds)

/-- Fixed batch size of the upsert loop (`const batchSize = 10`). -/
def batchSize : Nat := 10

/-- The slicing of the point list performed by the upsert loop
(src/src.ts lines 130-137): `points.slice(i, i + 10)` for `i = 0, 10, 20, ...`. -/
def upsertBatches {α : Type} : List α → List (List α)
  | [] => []
  | p :: ps => ((p :: ps).take 10) :: upsertBatches ((p :: ps).drop 10)
termination_by l => l.length
decreasing_by
  simp only [List.length_drop, List.length_cons]
  omega

/-- Outcome of running the sequential upsert loop: the points durably
upserted, whether every batch succeeded, and how many upsert calls were
issued. -/
structure UpsertRun (α : Type) where
  upserted : List α
  ok : Bool
  calls : Nat

/-- The sequential upsert loop: each batch is awaited before the next is
issued; the first failing batch aborts the loop with no retry and no
rollback. `okf j` tells whether the j-th upsert call succeeds. -/
def runUpserts {α : Type} (okf : Nat → Bool) : Nat → List (List α) → UpsertRun α
  | _, [] => ⟨[], true, 0⟩
  | j, b :: bs =>
    if okf j then
      let r := runUpserts okf (j + 1) bs
      ⟨b ++ r.upserted, r.ok, r.calls + 1⟩
    else ⟨[], false, 1⟩

/-- External calls observable during `createVectorStore`. -/
inductive Effect
  | embedCall (text : String)
  | getCollectionCall
  | createCollectionCall
  | upsertCall
  deriving DecidableEq, Repr

/-- Outcome of `createVectorStore`: result, collection state afterwards,
the external calls issued, and the points durably upserted. -/
structure VSOutcome where
  result : Except RAGError Unit
  store : Option CollectionConfig
  effects : List Effect
  upserted : List Point

/-- `RAGImplementation.createVectorStore` (src/src.ts lines 103-138):
reject blank text, split, embed every chunk, ensure the collection with the
first embedding's dimensionality, build points, and upsert them in batches
of 10. -/
def createVectorStore (store : Option CollectionConfig) (text : String)
    (embed : String → List Int) (now : Nat → Nat) (iso : Nat → String)
    (okf : Nat → Bool) : VSOutcome :=
  if (jsTrim text.data).isEmpty then
    ⟨.error .emptyInput, store, [], []⟩
  else
    let documentTexts := chunkText text
    let embeds := documentTexts.map embed
    let embedEffects := documentTexts.map Effect.embedCall
    let ens := ensureCollection store (embeds.headD []).length
    let ensEffects :=
      Effect.getCollectionCall :: (if ens.created then [Effect.createCollectionCall] else [])
    match ens.result with
    | .error e => ⟨.error e, ens.store, embedEffects ++ ensEffects, []⟩
    | .ok _ =>
      let points := mkPoints now iso documentTexts embeds
      let run := runUpserts okf 0 (upsertBatches points)
      ⟨if run.ok then .ok () else .error .vectorStore, ens.store,
        embedEffects ++ ensEffects ++ List.replicate run.calls Effect.upsertCall,
        run.upserted⟩

/-! ### Classification and response generation -/

structure Prompts where
  classification : String
  response : String
  deriving DecidableEq, Repr

/-- `RAGImplementation.classifyQuery` (src/src.ts lines 66-75): substitute
the query into the classification template, issue one chat call, return the
content or `"general"`. The second component records the prompts sent to the
chat provider. -/
def classifyQuery (p : Prompts) (query : String) (chat : String → Option String) :
    String × List String :=
  let prompt := jsReplaceFirst p.classification "{query}" query
  (jsOrDefault (chat prompt) "general", [prompt])

/-- A Qdrant search hit as read by `getBotResponse`: `hit.payload?.text`
(outer option: payload present; inner option: text field present). -/
structure SearchHit where
  payloadText : Option (Option String)

/-- `hit.payload?.text || ''`. -/
def hitText (h : SearchHit) : String :=
  jsOrDefault (h.payloadText.bind id) ""

/-- Search limit of the retrieval call (`limit: 3`). -/
def searchLimit : Nat := 3

/-- The prompt built by `getBotResponse` for a non-empty result set: the
space-joined context and then the user input substituted into the response
template, in that order. -/
def responsePromptFor (p : Prompts) (userInput : String) (hits : List SearchHit) : String :=
  jsReplaceFirst
    (jsReplaceFirst p.response "{context}" (String.intercalate " " (hits.map hitText)))
    "{query}" userInput

/-- `RAGImplementation.getBotResponse` (src/src.ts lines 140-166) from the
search results on: empty results return the fallback with no chat call;
otherwise the built prompt is sent in one chat call and its content (or the
fallback when unusable) is returned. The second component records the
prompts sent to the chat provider. -/
def getBotResponse (p : Prompts) (fallback : String) (userInput : String)
    (hits : List SearchHit) (chat : String → Option String) : String × List String :=
  if hits.length = 0 then (fallback, [])
  else
    let prompt := responsePromptFor p userInput hits
    (jsOrDefault (chat prompt) fallback, [prompt])

/-! ### Construction and prompt updates -/

/-- The default classification prompt of the constructor. -/
def defaultClassificationPrompt : String :=
  "I am providing you a query, based on the query your work is detect whether that is related to marks, events or general information. \n\nQuery: {query} \n\nPlease type marks, events or general based on the query. \n\nPlease type only one of the three words and dont type any other text. \n\nIf you are not sure, you can type general. Write your lowercase only, never put anything in uppercase"

/-- The default response prompt of the constructor. -/
def defaultResponsePrompt : String :=
  "You are a helpful assistant. Based on this context: \"{context}\", please answer this question: \"{query}\". If you cannot find a relevant answer in the context, please say so."

def defaultFallbackResponse : String :=
  "I could not find relevant information for your query."

def defaultCollectionName : String := "default_collection"

/-- The `RAGConfig` argument of the constructor; every field is optional at
the JavaScript level (`config.prompts?.classification` flattens the nested
optional record). -/
structure RAGConfig where
  googleApiKey : Option String
  qdrantUrl : Option String
  qdrantApiKey : Option String
  groqApiKey : Option String
  collectionName : Option String
  fallbackResponse : Option String
  promptsClassification : Option String
  promptsResponse : Option String

/-- The pipeline state established by a successful construction. -/
structure RAGState where
  collectionName : String
  fallbackResponse : String
  prompts : Prompts
  deriving DecidableEq, Repr

/-- `RAGImplementation.constructor` (src/src.ts lines 35-64): fail when any
of the four required fields is falsy, otherwise populate the state with the
`||`-defaults. Pure: constructing the three client objects issues no
network call. -/
def mkRAG (config : RAGConfig) : Except RAGError RAGState :=
  if !(jsTruthy config.googleApiKey && jsTruthy config.qdrantUrl
      && jsTruthy config.qdrantApiKey && jsTruthy config.groqApiKey) then
    .error .configuration
  else
    .ok { collectionName := jsOrDefault config.collectionName defaultCollectionName,
          fallbackResponse := jsOrDefault config.fallbackResponse defaultFallbackResponse,
          prompts :=
            { classification := jsOrDefault config.promptsClassification defaultClassificationPrompt,
              response := jsOrDefault config.promptsResponse defaultResponsePrompt } }

/-- Argument of `updatePrompts`: a `Partial` record, `none` meaning the field
is absent. -/
structure PromptsUpdate where
  classification : Option String
  response : Option String

/-- `RAGImplementation.updatePrompts` (src/src.ts lines 185-190):
`{...this.prompts, ...newPrompts}` — fields present in the update override,
absent fields keep their previous value. -/
def updatePrompts (st : RAGState) (u : PromptsUpdate) : RAGState :=
  { st with
    prompts := { classification := u.classification.getD st.prompts.classification,
                 response := u.response.getD st.prompts.response } }

/-! ### Helper lemmas -/

theorem jsTruthy_eq_false_iff (x : Option String) :
    jsTruthy x = false ↔ (x = none ∨ x = some "") := by
  cases x with
  | none => simp [jsTruthy]
  | some s => simp [jsTruthy]

/-- `listReplaceFirst` replaces the leftmost occurrence of the pattern and
leaves everything after it, later occurrences included, unchanged. -/
theorem listReplaceFirst_append_eq (pat repl : List Char) :
    ∀ (a b : List Char), noPrefixBefore pat (a ++ pat ++ b) a.length →
      listReplaceFirst pat repl (a ++ pat ++ b) = a ++ repl ++ b := by
  intro a
  induction a with
  | nil =>
    intro b _
    have hpre : pat.isPrefixOf (pat ++ b) = true :=
      List.isPrefixOf_iff_prefix.mpr ⟨b, rfl⟩
    cases pat with
    | nil =>
      cases b with
      | nil => simp [listReplaceFirst]
      | cons c bs => simp [listReplaceFirst, hpre]
    | cons p ps =>
      have hpre' : (p :: ps).isPrefixOf (p :: (ps ++ b)) = true := hpre
      show listReplaceFirst (p :: ps) repl (p :: (ps ++ b)) = [] ++ repl ++ b
      rw [listReplaceFirst, if_pos hpre']
      simp [List.drop_left]
  | cons c a' ih =>
    intro b ha
    have h0 : pat.isPrefixOf (c :: (a' ++ pat ++ b)) = false := by
      have := ha 0 (by simp)
      simpa using this
    show listReplaceFirst pat repl (c :: (a' ++ pat ++ b)) = (c :: a') ++ repl ++ b
    rw [listReplaceFirst, if_neg (by rw [h0]; exact Bool.false_ne_true)]
    have ha' : noPrefixBefore pat (a' ++ pat ++ b) a'.length := by
      intro i hi
      have := ha (i + 1) (by simpa using hi)
      simpa using this
    show c :: listReplaceFirst pat repl (a' ++ pat ++ b) = c :: (a' ++ repl ++ b)
    exact congrArg (List.cons c) (ih b ha')

/-! ### Claim theorems -/

/-- C1: `ensureCollection` trichotomy. A missing collection is created with
exactly the requested dimensionality and cosine distance; an existing
collection whose declared dimensionality equals the requested vector size
makes the call a no-op; an existing collection with a different declared
dimensionality makes the call fail with a dimension-mismatch error, with no
create and no change to the collection. -/
theorem ensureCollection_trichotomy (v : Nat) (c : CollectionConfig) :
    (ensureCollection none v =
      ⟨.ok (), some { vectors := some { size := v, distance := .cosine },
                      defaultSegmentNumber := 2, replicationFactor := 2,
                      writeConsistencyFactor := 1 }, true⟩)
    ∧ (∀ d, c.vectors = some ⟨v, d⟩ →
        ensureCollection (some c) v = ⟨.ok (), some c, false⟩)
    ∧ (∀ w d, c.vectors = some ⟨w, d⟩ → w ≠ v →
        ensureCollection (some c) v = ⟨.error (.dimensionMismatch v), some c, false⟩) := by
  refine ⟨rfl, ?_, ?_⟩
  · intro d h
    simp [ensureCollection, h]
  · intro w d h hne
    simp [ensureCollection, h, hne]

/-- Witness for C1: the trichotomy evaluated at dimension 3, on a missing
collection, a matching collection, and a collection declared with
dimension 4. -/
theorem ensureCollection_trichotomy_witness :
    ensureCollection none 3 =
      ⟨.ok (), some ⟨some ⟨3, .cosine⟩, 2, 2, 1⟩, true⟩
    ∧ ensureCollection (some ⟨some ⟨3, .cosine⟩, 2, 2, 1⟩) 3 =
      ⟨.ok (), some ⟨some ⟨3, .cosine⟩, 2, 2, 1⟩, false⟩
    ∧ ensureCollection (some ⟨some ⟨4, .cosine⟩, 2, 2, 1⟩) 3 =
      ⟨.error (.dimensionMismatch 3), some ⟨some ⟨4, .cosine⟩, 2, 2, 1⟩, false⟩ :=
  ⟨(ensureCollection_trichotomy 3 ⟨some ⟨3, .cosine⟩, 2, 2, 1⟩).1,
   (ensureCollection_trichotomy 3 ⟨some ⟨3, .cosine⟩, 2, 2, 1⟩).2.1 .cosine rfl,
   (ensureCollection_trichotomy 3 ⟨some ⟨4, .cosine⟩, 2, 2, 1⟩).2.2 4 .cosine rfl
     (by decide)⟩

/-- C7: construction fails (with the configuration error) exactly when one of
the four required fields is missing or empty; otherwise it succeeds, and the
collection name defaults to `"default_collection"` when not supplied. The
constructor is a pure function: no network call is modelled or made. -/
theorem mkRAG_spec (config : RAGConfig) :
    ((∃ e, mkRAG config = .error e) ↔
      ((config.googleApiKey = none ∨ config.googleApiKey = some "")
        ∨ (config.qdrantUrl = none ∨ config.qdrantUrl = some "")
        ∨ (config.qdrantApiKey = none ∨ config.qdrantApiKey = some "")
        ∨ (config.groqApiKey = none ∨ config.groqApiKey = some "")))
    ∧ (¬ (((config.googleApiKey = none ∨ config.googleApiKey = some "")
        ∨ (config.qdrantUrl = none ∨ config.qdrantUrl = some "")
        ∨ (config.qdrantApiKey = none ∨ config.qdrantApiKey = some "")
        ∨ (config.groqApiKey = none ∨ config.groqApiKey = some ""))) →
        ∃ st, mkRAG config = .ok st)
    ∧ (∀ e, mkRAG config = .error e → e = .configuration)
    ∧ (config.collectionName = none →
        ∀ st, mkRAG config = .ok st → st.collectionName = defaultCollectionName) := by
  simp only [← jsTruthy_eq_false_iff]
  cases hg : jsTruthy config.googleApiKey <;>
    cases hu : jsTruthy config.qdrantUrl <;>
      cases hk : jsTruthy config.qdrantApiKey <;>
        cases hq : jsTruthy config.groqApiKey <;>
          simp [mkRAG, hg, hu, hk, hq]
  intro hnone
  simp [jsOrDefault, hnone]

/-- Witness for C7: a configuration missing the embedding credential fails
with the configuration error; a complete configuration without a collection
name succeeds with collection name `"default_collection"`. -/
theorem mkRAG_spec_witness :
    (∃ e, mkRAG ⟨none, some "u", some "k", some "g", none, none, none, none⟩ = .error e)
    ∧ (∀ st, mkRAG ⟨some "a", some "u", some "k", some "g", none, none, none, none⟩ = .ok st →
        st.collectionName = defaultCollectionName) :=
  ⟨(mkRAG_spec ⟨none, some "u", some "k", some "g", none, none, none, none⟩).1.mpr
      (Or.inl (Or.inl rfl)),
   fun st hst =>
    (mkRAG_spec ⟨some "a", some "u", some "k", some "g", none, none, none, none⟩).2.2.2
      rfl st hst⟩

/-- C8: `updatePrompts` replaces exactly the template fields present in the
argument; a field not supplied keeps its previous value, and the collection
name and fallback text are unchanged by the call. -/
theorem updatePrompts_spec (st : RAGState) (u : PromptsUpdate) :
    (updatePrompts st u).prompts.classification
      = u.classification.getD st.prompts.classification
    ∧ (updatePrompts st u).prompts.response = u.response.getD st.prompts.response
    ∧ (u.classification = none →
        (updatePrompts st u).prompts.classification = st.prompts.classification)
    ∧ (u.response = none →
        (updatePrompts st u).prompts.response = st.prompts.response)
    ∧ (updatePrompts st u).collectionName = st.collectionName
    ∧ (updatePrompts st u).fallbackResponse = st.fallbackResponse := by
  refine ⟨rfl, rfl, ?_, ?_, rfl, rfl⟩ <;> intro h <;> simp [updatePrompts, h]

/-- Witness for C8: updating only the classification template of a concrete
state leaves the response template, collection name and fallback unchanged. -/
theorem updatePrompts_spec_witness :
    (updatePrompts ⟨"coll", "fb", "c0", "r0"⟩ ⟨some "X", none⟩).prompts.classification = "X"
    ∧ (updatePrompts ⟨"coll", "fb", "c0", "r0"⟩ ⟨some "X", none⟩).prompts.response = "r0"
    ∧ (updatePrompts ⟨"coll", "fb", "c0", "r0"⟩ ⟨some "X", none⟩).collectionName = "coll"
    ∧ (updatePrompts ⟨"coll", "fb", "c0", "r0"⟩ ⟨some "X", none⟩).fallbackResponse = "fb" :=
  ⟨(updatePrompts_spec ⟨"coll", "fb", "c0", "r0"⟩ ⟨some "X", none⟩).1,
   (updatePrompts_spec ⟨"coll", "fb", "c0", "r0"⟩ ⟨some "X", none⟩).2.2.2.1 rfl,
   (updatePrompts_spec ⟨"coll", "fb", "c0", "r0"⟩ ⟨some "X", none⟩).2.2.2.2.1,
   (updatePrompts_spec ⟨"coll", "fb", "c0", "r0"⟩ ⟨some "X", none⟩).2.2.2.2.2⟩

/-- C10: placeholder substitution replaces only the first occurrence. For a
template whose leftmost `{query}` occurrence follows the prefix `a`, only
that occurrence is replaced and the rest of the template (later `{query}`
occurrences included) stays literal; and in the response path `{context}` is
substituted before `{query}`, so a `{query}` token inside the retrieved
context is itself replaced by the user's query while a later `{query}` in
the template stays literal. -/
theorem placeholder_substitution_first_only :
    (∀ (a b q : List Char),
      noPrefixBefore queryPat (a ++ queryPat ++ b) a.length →
      (jsReplaceFirst ⟨a ++ queryPat ++ b⟩ "{query}" ⟨q⟩).data = a ++ q ++ b)
    ∧ (∀ (a b c1 c2 q : List Char),
      noPrefixBefore contextPat (a ++ contextPat ++ b) a.length →
      noPrefixBefore queryPat ((a ++ c1) ++ queryPat ++ (c2 ++ b)) (a ++ c1).length →
      (jsReplaceFirst
          (jsReplaceFirst ⟨a ++ contextPat ++ b⟩ "{context}" ⟨c1 ++ queryPat ++ c2⟩)
          "{query}" ⟨q⟩).data
        = (a ++ c1) ++ q ++ (c2 ++ b)) := by
  constructor
  · intro a b q ha
    exact listReplaceFirst_append_eq queryPat q a b ha
  · intro a b c1 c2 q hc hq
    show listReplaceFirst queryPat q
        (jsReplaceFirst ⟨a ++ contextPat ++ b⟩ "{context}" ⟨c1 ++ queryPat ++ c2⟩).data
      = (a ++ c1) ++ q ++ (c2 ++ b)
    have h1 : (jsReplaceFirst ⟨a ++ contextPat ++ b⟩ "{context}"
        ⟨c1 ++ queryPat ++ c2⟩).data = a ++ (c1 ++ queryPat ++ c2) ++ b :=
      listReplaceFirst_append_eq contextPat (c1 ++ queryPat ++ c2) a b hc
    rw [h1]
    have hassoc : a ++ (c1 ++ queryPat ++ c2) ++ b
        = (a ++ c1) ++ queryPat ++ (c2 ++ b) := by
      simp [List.append_assoc]
    rw [hassoc]
    exact listReplaceFirst_append_eq queryPat q (a ++ c1) (c2 ++ b) hq

/-- Witness for C10: a template with two `{query}` occurrences keeps the
second one literal; a `{query}` inside the retrieved context is replaced by
the user's query while the later `{query}` of the template stays. -/
theorem placeholder_substitution_first_only_witness :
    (jsReplaceFirst ⟨"A ".data ++ queryPat ++ " B {query}".data⟩ "{query}" ⟨"Q".data⟩).data
      = "A ".data ++ "Q".data ++ " B {query}".data
    ∧ (jsReplaceFirst
        (jsReplaceFirst ⟨"C:".data ++ contextPat ++ " Q:{query}".data⟩ "{context}"
          ⟨"x".data ++ queryPat ++ "y".data⟩)
        "{query}" ⟨"QQ".data⟩).data
      = ("C:".data ++ "x".data) ++ "QQ".data ++ ("y".data ++ " Q:{query}".data) :=
  ⟨placeholder_substitution_first_only.1 "A ".data " B {query}".data "Q".data (by decide),
   placeholder_substitution_first_only.2 "C:".data " Q:{query}".data "x".data "y".data
     "QQ".data (by decide) (by decide)⟩

/-- C3 counterexample: the claim says the label is the provider's response
text trimmed of surrounding whitespace, but when the provider answers
`" marks "` the code returns it untrimmed, which differs from its trimmed
form `"marks"`. -/
theorem classifyQuery_trim_counterexample :
    (classifyQuery ⟨"{query}", "{context}"⟩ "q" (fun _ => some " marks ")).1 = " marks "
    ∧ (classifyQuery ⟨"{query}", "{context}"⟩ "q" (fun _ => some " marks ")).1
      ≠ String.mk (jsTrim " marks ".data) := by
  decide

/-- C3 amended: `classifyQuery` substitutes the query for the leftmost
`{query}` occurrence in the classification template, issues a single chat
call with that prompt, and returns the provider's response text (untrimmed)
as the label; when the provider returns no usable content the label is
exactly `"general"`. -/
theorem classifyQuery_spec (a b : List Char) (rsp q : String)
    (chat : String → Option String)
    (ha : noPrefixBefore queryPat (a ++ queryPat ++ b) a.length) :
    (classifyQuery ⟨⟨a ++ queryPat ++ b⟩, rsp⟩ q chat).2 = [⟨a ++ q.data ++ b⟩]
    ∧ ((chat ⟨a ++ q.data ++ b⟩ = none ∨ chat ⟨a ++ q.data ++ b⟩ = some "") →
        (classifyQuery ⟨⟨a ++ queryPat ++ b⟩, rsp⟩ q chat).1 = "general")
    ∧ (∀ s, chat ⟨a ++ q.data ++ b⟩ = some s → s ≠ "" →
        (classifyQuery ⟨⟨a ++ queryPat ++ b⟩, rsp⟩ q chat).1 = s) := by
  have hp : jsReplaceFirst ⟨a ++ queryPat ++ b⟩ "{query}" q = ⟨a ++ q.data ++ b⟩ :=
    congrArg String.mk (listReplaceFirst_append_eq queryPat q.data a b ha)
  refine ⟨?_, ?_, ?_⟩
  · show [jsReplaceFirst ⟨a ++ queryPat ++ b⟩ "{query}" q] = [(⟨a ++ q.data ++ b⟩ : String)]
    rw [hp]
  · intro h
    show jsOrDefault (chat (jsReplaceFirst ⟨a ++ queryPat ++ b⟩ "{query}" q)) "general"
      = "general"
    rw [hp]
    rcases h with h | h <;> rw [h] <;> simp [jsOrDefault]
  · intro s hs hne
    show jsOrDefault (chat (jsReplaceFirst ⟨a ++ queryPat ++ b⟩ "{query}" q)) "general" = s
    rw [hp, hs]
    simp [jsOrDefault, hne]

/-- Witness for C3 (amended): concrete template `"T {query} S"`, query
`"q"`; a provider answering `"marks"` yields label `"marks"` with exactly
that prompt sent, a provider answering nothing yields `"general"`. -/
theorem classifyQuery_spec_witness :
    (classifyQuery ⟨⟨"T ".data ++ queryPat ++ " S".data⟩, "r"⟩ "q"
        (fun _ => some "marks")).2 = [⟨"T ".data ++ "q".data ++ " S".data⟩]
    ∧ (classifyQuery ⟨⟨"T ".data ++ queryPat ++ " S".data⟩, "r"⟩ "q"
        (fun _ => some "marks")).1 = "marks"
    ∧ (classifyQuery ⟨⟨"T ".data ++ queryPat ++ " S".data⟩, "r"⟩ "q"
        (fun _ => none)).1 = "general" :=
  ⟨(classifyQuery_spec "T ".data " S".data "r" "q" (fun _ => some "marks")
      (by decide)).1,
   (classifyQuery_spec "T ".data " S".data "r" "q" (fun _ => some "marks")
      (by decide)).2.2 "marks" rfl (by decide),
   (classifyQuery_spec "T ".data " S".data "r" "q" (fun _ => none)
      (by decide)).2.1 (Or.inl rfl)⟩

/-- C2: the response step returns the configured fallback exactly when the
search returns zero results (and then no chat call is issued) or when the
chat provider returns no usable content; otherwise it returns the provider's
generated text, which is never the empty string. -/
theorem getBotResponse_spec (p : Prompts) (fb userInput : String)
    (hits : List SearchHit) (chat : String → Option String) :
    (hits = [] → getBotResponse p fb userInput hits chat = (fb, []))
    ∧ (hits ≠ [] →
        (getBotResponse p fb userInput hits chat).2 = [responsePromptFor p userInput hits]
        ∧ ((chat (responsePromptFor p userInput hits) = none
            ∨ chat (responsePromptFor p userInput hits) = some "") →
            (getBotResponse p fb userInput hits chat).1 = fb)
        ∧ (∀ s, chat (responsePromptFor p userInput hits) = some s → s ≠ "" →
            (getBotResponse p fb userInput hits chat).1 = s ∧ s ≠ "")) := by
  constructor
  · intro h
    subst h
    rfl
  · intro h
    have hlen : ¬ hits.length = 0 := by
      simpa [List.length_eq_zero] using h
    refine ⟨?_, ?_, ?_⟩
    · simp [getBotResponse, hlen]
    · intro hc
      rcases hc with hc | hc <;> simp [getBotResponse, hlen, hc, jsOrDefault]
    · intro s hs hne
      exact ⟨by simp [getBotResponse, hlen, hs, jsOrDefault, hne], hne⟩

/-- Witness for C2: with no search hits the fallback is returned and no chat
call issued; with one hit the provider's answer is returned, and a provider
with no content yields the fallback. -/
theorem getBotResponse_spec_witness :
    getBotResponse ⟨"c", "R: {context} Q: {query}"⟩ "fb" "q" [] (fun _ => some "ans")
      = ("fb", [])
    ∧ (getBotResponse ⟨"c", "R: {context} Q: {query}"⟩ "fb" "q" [⟨some (some "ctx")⟩]
        (fun _ => some "ans")).1 = "ans"
    ∧ (getBotResponse ⟨"c", "R: {context} Q: {query}"⟩ "fb" "q" [⟨some (some "ctx")⟩]
        (fun _ => none)).1 = "fb" :=
  ⟨(getBotResponse_spec ⟨"c", "R: {context} Q: {query}"⟩ "fb" "q" []
      (fun _ => some "ans")).1 rfl,
   (((getBotResponse_spec ⟨"c", "R: {context} Q: {query}"⟩ "fb" "q" [⟨some (some "ctx")⟩]
      (fun _ => some "ans")).2 (by simp)).2.2 "ans" rfl (by decide)).1,
   ((getBotResponse_spec ⟨"c", "R: {context} Q: {query}"⟩ "fb" "q" [⟨some (some "ctx")⟩]
      (fun _ => none)).2 (by simp)).2.1 (Or.inl rfl)⟩

/-- Every point built from start index `idx + 1` on has an id strictly above
`now idx + idx`, provided the clock is non-decreasing. -/
theorem mkPointsAux_id_gt (now : Nat → Nat) (iso : Nat → String)
    (hmono : ∀ i j, i ≤ j → now i ≤ now j) :
    ∀ (ps : List (String × List Int)) (idx : Nat) (pt : Point),
      pt ∈ mkPointsAux now iso (idx + 1) ps → now idx + idx < pt.id := by
  intro ps
  induction ps with
  | nil =>
    intro idx pt h
    simp [mkPointsAux] at h
  | cons hd tl ih =>
    intro idx pt h
    rcases hd with ⟨t, v⟩
    rcases List.mem_cons.mp h with h1 | h1
    · subst h1
      have := hmono idx (idx + 1) (Nat.le_succ idx)
      show now idx + idx < now (idx + 1) + (idx + 1)
      omega
    · have hgt := ih (idx + 1) pt h1
      have hle := hmono idx (idx + 1) (Nat.le_succ idx)
      omega

theorem mkPointsAux_ids_pairwise (now : Nat → Nat) (iso : Nat → String)
    (hmono : ∀ i j, i ≤ j → now i ≤ now j) :
    ∀ (ps : List (String × List Int)) (idx : Nat),
      ((mkPointsAux now iso idx ps).map Point.id).Pairwise (· < ·) := by
  intro ps
  induction ps with
  | nil =>
    intro idx
    simp [mkPointsAux]
  | cons hd tl ih =>
    intro idx
    rcases hd with ⟨t, v⟩
    refine List.Pairwise.cons ?_ (ih (idx + 1))
    intro y hy
    rcases List.mem_map.mp hy with ⟨pt, hpt, rfl⟩
    exact mkPointsAux_id_gt now iso hmono tl idx pt hpt

/-- C5: within one indexing call the point identifiers (`Date.now() + i`)
are strictly increasing in the chunk ordinal — hence pairwise distinct —
whenever the clock is non-decreasing during the call. -/
theorem mkPoints_ids_strictly_increasing (now : Nat → Nat) (iso : Nat → String)
    (texts : List String) (embeds : List (List Int))
    (hmono : ∀ i j, i ≤ j → now i ≤ now j) :
    ((mkPoints now iso texts embeds).map Point.id).Pairwise (· < ·)
    ∧ ((mkPoints now iso texts embeds).map Point.id).Pairwise (· ≠ ·) := by
  have h := mkPointsAux_ids_pairwise now iso hmono (texts.zip embeds) 0
  exact ⟨h, h.imp fun hab => Nat.ne_of_lt hab⟩

/-- Witness for C5: three chunks, constant clock; ids `1000, 1001, 1002`
are strictly increasing and pairwise distinct. -/
theorem mkPoints_ids_strictly_increasing_witness :
    ((mkPoints (fun _ => 1000) (fun _ => "t") ["a", "b", "c"]
        [[1], [2], [3]]).map Point.id).Pairwise (· < ·)
    ∧ ((mkPoints (fun _ => 1000) (fun _ => "t") ["a", "b", "c"]
        [[1], [2], [3]]).map Point.id).Pairwise (· ≠ ·) :=
  mkPoints_ids_strictly_increasing (fun _ => 1000) (fun _ => "t") ["a", "b", "c"]
    [[1], [2], [3]] (fun _ _ _ => Nat.le_refl 1000)

/-- Flattening the batches gives back the original point list. -/
theorem upsertBatches_flatten {α : Type} (ps : List α) :
    (upsertBatches ps).flatten = ps := by
  induction ps using upsertBatches.induct with
  | case1 => simp [upsertBatches]
  | case2 p ps ih =>
    rw [upsertBatches, List.flatten_cons, ih, List.take_append_drop]

/-- Every batch is non-empty and holds at most ten points. -/
theorem upsertBatches_mem {α : Type} (ps : List α) :
    ∀ b ∈ upsertBatches ps, b.length ≤ 10 ∧ b ≠ [] := by
  induction ps using upsertBatches.induct with
  | case1 =>
    intro b hb
    simp [upsertBatches] at hb
  | case2 p ps ih =>
    intro b hb
    rw [upsertBatches] at hb
    rcases List.mem_cons.mp hb with h | h
    · subst h
      refine ⟨?_, by simp⟩
      simp only [List.length_take]
      omega
    · exact ih b h

/-- Every batch except the last holds exactly ten points. -/
theorem upsertBatches_full {α : Type} (ps : List α) :
    ∀ i, i + 1 < (upsertBatches ps).length →
      ((upsertBatches ps).getD i []).length = 10 := by
  induction ps using upsertBatches.induct with
  | case1 =>
    intro i hi
    simp [upsertBatches] at hi
  | case2 p ps ih =>
    intro i hi
    rw [upsertBatches] at hi ⊢
    cases i with
    | zero =>
      have htail : upsertBatches ((p :: ps).drop 10) ≠ [] := by
        intro hnil
        rw [hnil] at hi
        simp at hi
      have hdrop : (p :: ps).drop 10 ≠ [] := by
        intro hnil
        exact htail (by rw [hnil, upsertBatches])
      have hlen : 10 < (p :: ps).length := by
        by_contra hle
        push_neg at hle
        exact hdrop (List.drop_eq_nil_of_le hle)
      simp only [List.getD_cons_zero, List.length_take]
      omega
    | succ i' =>
      have := ih i' (by simpa using hi)
      simpa using this

/-- If `ps` holds more than ten points there are at least two batches. -/
theorem upsertBatches_two_batches {α : Type} (ps : List α) (h : 10 < ps.length) :
    1 < (upsertBatches ps).length := by
  rcases hb : upsertBatches ps with _ | ⟨b, rest⟩
  · have : ps = [] := by
      rw [← upsertBatches_flatten ps, hb, List.flatten_nil]
    simp [this] at h
  · rcases rest with _ | ⟨b2, rest2⟩
    · have hps : ps = b := by
        rw [← upsertBatches_flatten ps, hb]
        simp
      have hle := (upsertBatches_mem ps b (by rw [hb]; exact List.mem_cons_self b [])).1
      rw [← hps] at hle
      omega
    · simp

/-- Running the upsert loop when the first failure is the j-th call: the
upserted points are exactly the flattening of the first j batches and
exactly j+1 calls were issued. -/
theorem runUpserts_first_failure {α : Type} (okf : Nat → Bool) :
    ∀ (bs : List (List α)) (j0 j : Nat),
      (∀ i, i < j → okf (j0 + i) = true) → okf (j0 + j) = false → j < bs.length →
      (runUpserts okf j0 bs).upserted = (bs.take j).flatten
      ∧ (runUpserts okf j0 bs).calls = j + 1 := by
  intro bs
  induction bs with
  | nil =>
    intro j0 j _ _ hj
    simp at hj
  | cons b rest ih =>
    intro j0 j hok hfail hj
    cases j with
    | zero =>
      have h0 : okf j0 = false := by simpa using hfail
      rw [runUpserts]
      simp [h0]
    | succ j' =>
      have h0 : okf j0 = true := by simpa using hok 0 (Nat.succ_pos j')
      have hok' : ∀ i, i < j' → okf (j0 + 1 + i) = true := by
        intro i hi
        have h := hok (i + 1) (by omega)
        have heq : j0 + 1 + i = j0 + (i + 1) := by omega
        rw [heq]
        exact h
      have hfail' : okf (j0 + 1 + j') = false := by
        have heq : j0 + 1 + j' = j0 + (j' + 1) := by omega
        rw [heq]
        exact hfail
      obtain ⟨h1, h2⟩ := ih (j0 + 1) j' hok' hfail' (by simpa using hj)
      rw [runUpserts]
      simp [h0, h1, h2]

/-- C4: the upsert step slices the point list into consecutive batches of
exactly ten points (the last possibly smaller, never empty), issues them
sequentially, and when the j-th call is the first to fail exactly the
points of batches 0..j-1 — a prefix of the point list — have been upserted,
with no retry (j+1 calls in total) and no rollback. -/
theorem upsert_batching_spec (ps : List Point) (okf : Nat → Bool) (j : Nat)
    (hok : ∀ i, i < j → okf i = true) (hfail : okf j = false)
    (hj : j < (upsertBatches ps).length) :
    (upsertBatches ps).flatten = ps
    ∧ (∀ b ∈ upsertBatches ps, b.length ≤ 10 ∧ b ≠ [])
    ∧ (∀ i, i + 1 < (upsertBatches ps).length →
        ((upsertBatches ps).getD i []).length = 10)
    ∧ (runUpserts okf 0 (upsertBatches ps)).upserted = ((upsertBatches ps).take j).flatten
    ∧ (runUpserts okf 0 (upsertBatches ps)).calls = j + 1
    ∧ ((upsertBatches ps).take j).flatten <+: ps := by
  have hrun := runUpserts_first_failure okf (upsertBatches ps) 0 j
    (by simpa using hok) (by simpa using hfail) hj
  refine ⟨upsertBatches_flatten ps, upsertBatches_mem ps, upsertBatches_full ps,
    hrun.1, hrun.2, ?_⟩
  refine ⟨((upsertBatches ps).drop j).flatten, ?_⟩
  rw [← List.flatten_append, List.take_append_drop, upsertBatches_flatten]

/-- A sample point and a twelve-point list for the C4 witness. -/
def samplePoint : Point :=
  { id := 0, vector := [], text := "", timestamp := "", chunkIndex := 0 }

def samplePoints : List Point := List.replicate 12 samplePoint

/-- Witness for C4: twelve points, the second upsert call fails; the
upserted points are the flattening of the first batch, a prefix of the
point list, and exactly two calls were issued. -/
theorem upsert_batching_spec_witness :
    (upsertBatches samplePoints).flatten = samplePoints
    ∧ (runUpserts (fun n => n == 0) 0 (upsertBatches samplePoints)).upserted
        = ((upsertBatches samplePoints).take 1).flatten
    ∧ (runUpserts (fun n => n == 0) 0 (upsertBatches samplePoints)).calls = 2
    ∧ ((upsertBatches samplePoints).take 1).flatten <+: samplePoints := by
  have h := upsert_batching_spec samplePoints (fun n => n == 0) 1
    (by decide) (by decide)
    (upsertBatches_two_batches samplePoints (by simp [samplePoints]))
  exact ⟨h.1, h.2.2.2.1, h.2.2.2.2.1, h.2.2.2.2.2⟩

/-- The JS trim of a character list is empty exactly when every character is
whitespace (in particular for the empty list). -/
theorem jsTrim_eq_nil_iff (s : List Char) :
    jsTrim s = [] ↔ ∀ c ∈ s, c.isWhitespace := by
  unfold jsTrim
  rw [List.reverse_eq_nil_iff, List.dropWhile_eq_nil_iff]
  constructor
  · intro h c hc
    have hsplit := List.takeWhile_append_dropWhile Char.isWhitespace (l := s)
    rw [← hsplit] at hc
    rcases List.mem_append.mp hc with h1 | h1
    · exact List.mem_takeWhile_imp h1
    · exact h c (List.mem_reverse.mpr h1)
  · intro h c hc
    exact h c (List.Sublist.mem (List.mem_reverse.mp hc)
      (List.dropWhile_sublist Char.isWhitespace))

/-- C6: for empty or whitespace-only source text, `createVectorStore` fails
with the empty-input error before any external call: no embedding call, no
collection read or creation, no upsert, and the collection state is
unchanged. -/
theorem createVectorStore_blank_input (store : Option CollectionConfig) (text : String)
    (embed : String → List Int) (now : Nat → Nat) (iso : Nat → String) (okf : Nat → Bool)
    (hws : ∀ c ∈ text.data, c.isWhitespace) :
    createVectorStore store text embed now iso okf
      = ⟨.error .emptyInput, store, [], []⟩ := by
  have h : jsTrim text.data = [] := (jsTrim_eq_nil_iff text.data).mpr hws
  simp [createVectorStore, h]

/-- Witness for C6: both the whitespace-only text `" \n "` and the empty
text fail with the empty-input error and no effects. -/
theorem createVectorStore_blank_input_witness :
    createVectorStore none " \n " (fun _ => [1]) (fun _ => 0) (fun _ => "t") (fun _ => true)
      = ⟨.error .emptyInput, none, [], []⟩
    ∧ createVectorStore none "" (fun _ => [1]) (fun _ => 0) (fun _ => "t") (fun _ => true)
      = ⟨.error .emptyInput, none, [], []⟩ :=
  ⟨createVectorStore_blank_input none " \n " (fun _ => [1]) (fun _ => 0) (fun _ => "t")
      (fun _ => true) (by decide),
   createVectorStore_blank_input none "" (fun _ => [1]) (fun _ => 0) (fun _ => "t")
      (fun _ => true) (by decide)⟩

/-- Dropping the 200-character overlap from every chunk and flattening gives
the source text without its first 200 characters. -/
theorem chunkListAux_flatten_drop (t : List Char) :
    ((chunkListAux t).map (List.drop 200)).flatten = t.drop 200 := by
  induction t using chunkListAux.induct with
  | case1 t h =>
    rw [chunkListAux, if_pos h]
    simp
  | case2 t h ih =>
    rw [chunkListAux, if_neg h]
    simp only [List.map_cons, List.flatten_cons, ih]
    have e1 : (t.take 1000).drop 200 = (t.drop 200).take 800 :=
      (List.take_drop 200 800 t).symm
    have e2 : (t.drop 800).drop 200 = (t.drop 200).drop 800 := by
      rw [List.drop_drop, List.drop_drop]
    rw [e1, e2, List.take_append_drop]

/-- The first chunk is always the first 1000 characters (or all of them). -/
theorem chunkListAux_head (t : List Char) :
    (chunkListAux t).head? = some (t.take 1000) := by
  rw [chunkListAux]
  split
  · next h => simp [List.take_of_length_le h]
  · next h => simp

/-- Reassembling the chunks (first chunk, then every later chunk without its
200-character overlap) reproduces the source text. -/
theorem chunk_reassemble (s : List Char) :
    reassemble (chunkListAux s) = s := by
  rw [chunkListAux]
  split
  · next h => simp [reassemble]
  · next h =>
    rw [reassemble, chunkListAux_flatten_drop]
    have e : (s.drop 800).drop 200 = s.drop 1000 := List.drop_drop 200 800 s
    rw [e, List.take_append_drop]

/-- Every chunk of a non-empty text is non-empty and at most 1000
characters long. -/
theorem chunkListAux_mem : ∀ (s : List Char), s ≠ [] →
    ∀ c ∈ chunkListAux s, c.length ≤ 1000 ∧ c ≠ [] := by
  intro s
  induction s using chunkListAux.induct with
  | case1 t h =>
    intro hs c hc
    rw [chunkListAux, if_pos h] at hc
    simp at hc
    subst hc
    exact ⟨h, hs⟩
  | case2 t h ih =>
    intro _ c hc
    rw [chunkListAux, if_neg h] at hc
    rcases List.mem_cons.mp hc with h1 | h1
    · subst h1
      constructor
      · simp only [List.length_take]
        omega
      · intro hnil
        have hlen := congrArg List.length hnil
        simp only [List.length_take, List.length_nil] at hlen
        omega
    · have hne : t.drop 800 ≠ [] := by
        intro hnil
        have hlen := congrArg List.length hnil
        simp only [List.length_drop, List.length_nil] at hlen
        omega
      exact ih hne c h1

/-- Consecutive chunks overlap by exactly 200 characters: what is left of a
chunk after its first 800 characters has length 200 and is a prefix of the
next chunk. -/
theorem chunkListAux_chain (t : List Char) :
    (chunkListAux t).Chain' (fun c₁ c₂ =>
      c₁.drop 800 <+: c₂ ∧ (c₁.drop 800).length = 200) := by
  induction t using chunkListAux.induct with
  | case1 t h =>
    rw [chunkListAux, if_pos h]
    exact List.chain'_singleton t
  | case2 t h ih =>
    rw [chunkListAux, if_neg h]
    rw [List.chain'_cons']
    refine ⟨?_, ih⟩
    intro y hy
    rw [chunkListAux_head] at hy
    have hy' : y = (t.drop 800).take 1000 := by
      simpa using hy.symm
    subst hy'
    constructor
    · have e1 : (t.take 1000).drop 800 = (t.drop 800).take 200 :=
        (List.take_drop 800 200 t).symm
      have e2 : (t.drop 800).take 200 = ((t.drop 800).take 1000).take 200 :=
        (List.take_take 200 1000 (t.drop 800)).symm
      rw [e1, e2]
      exact ⟨((t.drop 800).take 1000).drop 200,
        List.take_append_drop 200 ((t.drop 800).take 1000)⟩
    · simp only [List.length_drop, List.length_take]
      omega

/-- C9 (spec-modelled chunker): for every non-empty source text the chunks
form a non-empty ordered list; reassembling them after dropping the
overlaps reproduces the source exactly; every chunk is non-empty and at
most the target size of 1000 characters; and consecutive chunks overlap by
exactly the configured 200 characters. -/
theorem chunker_spec (s : List Char) (hs : s ≠ []) :
    chunkListAux s ≠ []
    ∧ reassemble (chunkListAux s) = s
    ∧ (∀ c ∈ chunkListAux s, c.length ≤ chunkSize ∧ c ≠ [])
    ∧ (chunkListAux s).Chain' (fun c₁ c₂ =>
        c₁.drop (chunkSize - chunkOverlap) <+: c₂
        ∧ (c₁.drop (chunkSize - chunkOverlap)).length = chunkOverlap) := by
  refine ⟨?_, chunk_reassemble s, chunkListAux_mem s hs, chunkListAux_chain s⟩
  intro hnil
  have hh := chunkListAux_head s
  rw [hnil] at hh
  simp at hh

/-- Witness for C9: the two-character text `"ab"` is chunked into a single
non-empty chunk that reassembles to itself. -/
theorem chunker_spec_witness :
    chunkListAux "ab".data ≠ []
    ∧ reassemble (chunkListAux "ab".data) = "ab".data
    ∧ (∀ c ∈ chunkListAux "ab".data, c.length ≤ chunkSize ∧ c ≠ [])
    ∧ (chunkListAux "ab".data).Chain' (fun c₁ c₂ =>
        c₁.drop (chunkSize - chunkOverlap) <+: c₂
        ∧ (c₁.drop (chunkSize - chunkOverlap)).length = chunkOverlap) :=
  chunker_spec "ab".data (by decide)

end RagTs
